import Mathlib

/-!
Shallow embedding of the upload pipeline of `inmobiliaria-tray-app`
(`src/src-tauri/src/uploader.rs` and `src/src-tauri/src/watcher.rs`),
together with theorems settling the spec's claims about it.

Conventions of the embedding:
* `VecDeque` becomes `List`, with the list head playing the role of the
  deque front (`push_front` = cons, `pop_back` = `dropLast`,
  `push_back` = append at the tail, `pop_front` = uncons).
* File-system paths become the structure `FPath` carrying a directory part
  and a base name; `FPath.fileName` models Rust's `path.file_name()`.
  Two distinct paths may share a file name, exactly as on a real file system.
* Machine integers (`u32` retry counters, `u64` file sizes) are far below
  their overflow bounds in this program (retries ≤ 10, one `+ 1` per failure;
  the delay is at most `5 * 2^6`), so they are embedded as `Nat`.
* Effects (reading metadata, performing the HTTP upload, deleting or moving
  a file) are inputs to the embedded step functions: each effect's outcome
  is a parameter (`Option Nat` for a size probe, `Option String` for an
  operation that may fail with an error message).
-/

namespace Inmob

/-- `MAX_RECENT` in uploader.rs: maximum number of recent uploads to track. -/
def MAX_RECENT : Nat := 15

/-- `RETRY_DELAY_BASE_SECS` in uploader.rs. -/
def RETRY_DELAY_BASE_SECS : Nat := 5

/-- `MAX_RETRIES` in uploader.rs: max retries before giving up on a file. -/
def MAX_RETRIES : Nat := 10

/-- `MAX_FILE_SIZE` in uploader.rs: 200 MiB. -/
def MAX_FILE_SIZE : Nat := 200 * 1024 * 1024

/-- `enum UploadStatus` in uploader.rs. -/
inductive UploadStatus where
  | Success
  | Failed
  | Pending
  | Uploading
deriving DecidableEq, Repr

/-- A status the worker never leaves once reached (spec §3): `Success` or
`Failed` reached terminally. -/
def UploadStatus.isTerminal : UploadStatus → Prop
  | .Success => True
  | .Failed => True
  | .Pending => False
  | .Uploading => False

instance (st : UploadStatus) : Decidable st.isTerminal := by
  cases st <;> simp [UploadStatus.isTerminal] <;> infer_instance

/-- A file-system path, abstracted as a directory part plus a base name.
Distinct paths can share a base name (the name-collision situation the
spec's §9 discusses). -/
structure FPath where
  dir : String
  base : String
deriving DecidableEq, Repr

/-- Models `path.file_name().unwrap_or_default().to_string_lossy()`. -/
def FPath.fileName (p : FPath) : String := p.base

/-- `struct QueueItem` in uploader.rs. -/
structure QueueItem where
  path : FPath
  retries : Nat
deriving DecidableEq, Repr

/-- `struct RecentUpload` in uploader.rs. -/
structure RecentUpload where
  name : String
  status : UploadStatus
  timestamp : String
  error : Option String
deriving DecidableEq, Repr

/-- The mutable state owned by `UploadManager` (uploader.rs lines 46-51):
the pending queue, the recent-upload ring, and the two flags. The list head
of `queue` is the deque front; the list head of `recent` is the most recent
record. -/
structure MgrState where
  queue : List QueueItem
  recent : List RecentUpload
  isUploading : Bool
  isOnline : Bool
deriving DecidableEq, Repr

/-- `UploadManager::new`. -/
def MgrState.init : MgrState :=
  { queue := [], recent := [], isUploading := false, isOnline := true }

/-- One round of the `while recent.len() > MAX_RECENT { recent.pop_back(); }`
loop in `UploadManager::add_recent`, with explicit fuel. Each iteration of
the Rust loop shortens the deque by one, so `l.length` rounds always
suffice; the fuel only makes that termination argument structural. -/
def trimAux : Nat → List RecentUpload → List RecentUpload
  | 0, l => l
  | fuel + 1, l => if MAX_RECENT < l.length then trimAux fuel l.dropLast else l

/-- The `while recent.len() > MAX_RECENT { recent.pop_back(); }` loop in
`UploadManager::add_recent`. -/
def trimRecent (l : List RecentUpload) : List RecentUpload :=
  trimAux l.length l

/-- `UploadManager::add_recent`: push at the front, then pop from the back
while over capacity. -/
def addRecent (entry : RecentUpload) (l : List RecentUpload) : List RecentUpload :=
  trimRecent (entry :: l)

/-- `UploadManager::update_recent_status_with_error`: mutate the first
(front-most, i.e. most recent) record whose name matches; no-op when no
record matches. -/
def updateRecent (name : String) (status : UploadStatus) (error : Option String) :
    List RecentUpload → List RecentUpload
  | [] => []
  | r :: rs =>
    if r.name = name then { r with status := status, error := error } :: rs
    else r :: updateRecent name status error rs

/-- `UploadManager::enqueue` (uploader.rs lines 64-89): no-op when the path is
already in the queue; otherwise record a Pending recent entry and push the
item at the tail with `retries = 0`. The `ts` parameter stands for the
wall-clock timestamp `chrono::Local::now().format("%H:%M:%S")`. -/
def MgrState.enqueue (p : FPath) (ts : String) (m : MgrState) : MgrState :=
  if m.queue.any (fun item => item.path = p) then m
  else
    { m with
      recent := addRecent
        { name := p.fileName, status := .Pending, timestamp := ts, error := none }
        m.recent,
      queue := m.queue ++ [{ path := p, retries := 0 }] }

/-- The retry backoff computed at uploader.rs line 255-256:
`RETRY_DELAY_BASE_SECS * 2u64.pow(item.retries.min(6))`, where
`item.retries` has already been incremented for the current failure. -/
def retryDelay (retries : Nat) : Nat :=
  RETRY_DELAY_BASE_SECS * 2 ^ (min retries 6)

/-- The validation at uploader.rs lines 181-198. The input is the outcome of
`std::fs::metadata(&item.path)`: `some size` on success, `none` on error.
Returns `some reason` exactly when validation fails. The embedded message
elides the numeric interpolation (`{:.0} MB` formatting, io::Error text) of
the Rust `format!` calls; only its presence matters to the claims. -/
def validateFile (meta : Option Nat) : Option String :=
  match meta with
  | some size =>
    if size = 0 then some "Archivo vacío"
    else if MAX_FILE_SIZE < size then some "Archivo demasiado grande"
    else none
  | none => some "No se puede leer"

/-- `is_file_ready` in watcher.rs (lines 67-81): two size probes 500 ms
apart; each input is `some size` when `std::fs::metadata` succeeded and
`none` when it failed. Ready iff both probes succeed, agree, and are
non-zero. -/
def isFileReady (first : Option Nat) (second : Option Nat) : Bool :=
  match first with
  | none => false
  | some firstSize =>
    match second with
    | none => false
    | some secondSize => firstSize == secondSize && 0 < firstSize

/-- The live watch path's decision to emit a path (the debounced-event
callback in watcher.rs lines 118-131): the path passes `should_ignore`,
`is_file`, the parent-directory check, and then `is_file_ready`. The three
boolean inputs abstract the first three checks; the two probes feed
`isFileReady`. -/
def watchEmits (ignored : Bool) (isFile : Bool) (parentIsInbox : Bool)
    (first second : Option Nat) : Bool :=
  !ignored && isFile && parentIsInbox && isFileReady first second

/-- The outcomes of the effectful calls one attempt of the worker body can
make (uploader.rs lines 170-278). `meta` is the size returned by
`std::fs::metadata` (`none` = error); `uploadErr` is `none` when
`upload_file` returns `Ok` and `some e` when it fails; `userError` stands
for `humanize_error(&e)`; the three `*Err` fields are the outcomes of
`remove_file`, `create_dir_all` and `rename` (`none` = success). -/
structure AttemptEnv where
  meta : Option Nat
  uploadErr : Option String
  userError : String
  deleteAfterUpload : Bool
  removeErr : Option String
  createDirErr : Option String
  renameErr : Option String
deriving DecidableEq, Repr

/-- What one worker attempt did, besides transforming the manager state:
whether `upload_file` was invoked, whether the item was pushed back on the
queue, which post-upload disposition branch ran, and how long the worker
slept at the end of the attempt (seconds). -/
structure AttemptResult where
  mgr : MgrState
  uploadInvoked : Bool
  requeued : Bool
  attemptedDelete : Bool
  attemptedMove : Bool
  renameInvoked : Bool
  slept : Nat
  forcedHealthRecheck : Bool
deriving DecidableEq, Repr

/-- One worker attempt on a dequeued item (uploader.rs lines 170-278).
`m` is the manager state just after `item` was popped from the queue front.
Mirrors the source order: mark `is_uploading`, set the record Uploading,
validate, then either fail validation (drop, no retry), upload successfully
(mark Success, then delete or move), or fail the upload (increment retries,
then re-enqueue with backoff or give up). -/
def runAttempt (env : AttemptEnv) (item : QueueItem) (m : MgrState) : AttemptResult :=
  let name := item.path.fileName
  let m1 : MgrState :=
    { m with isUploading := true,
             recent := updateRecent name .Uploading none m.recent }
  match validateFile env.meta with
  | some reason =>
    { mgr := { m1 with recent := updateRecent name .Failed (some reason) m1.recent,
                       isUploading := false },
      uploadInvoked := false, requeued := false,
      attemptedDelete := false, attemptedMove := false, renameInvoked := false,
      slept := 0, forcedHealthRecheck := false }
  | none =>
    match env.uploadErr with
    | none =>
      let m2 : MgrState :=
        { m1 with recent := updateRecent name .Success none m1.recent }
      if env.deleteAfterUpload then
        { mgr := { m2 with isUploading := false },
          uploadInvoked := true, requeued := false,
          attemptedDelete := true, attemptedMove := false, renameInvoked := false,
          slept := 0, forcedHealthRecheck := false }
      else
        { mgr := { m2 with isUploading := false },
          uploadInvoked := true, requeued := false,
          attemptedDelete := false, attemptedMove := true,
          renameInvoked := env.createDirErr = none,
          slept := 0, forcedHealthRecheck := false }
    | some _e =>
      let retried : QueueItem := { item with retries := item.retries + 1 }
      let m2 : MgrState := { m1 with isUploading := false }
      if retried.retries < MAX_RETRIES then
        { mgr := { m2 with
                   recent := updateRecent name .Pending
                     (some ("Reintentando: " ++ env.userError)) m2.recent,
                   queue := m2.queue ++ [retried] },
          uploadInvoked := true, requeued := true,
          attemptedDelete := false, attemptedMove := false, renameInvoked := false,
          slept := retryDelay retried.retries, forcedHealthRecheck := true }
      else
        { mgr := { m2 with recent := updateRecent name .Failed (some env.userError) m2.recent },
          uploadInvoked := true, requeued := false,
          attemptedDelete := false, attemptedMove := false, renameInvoked := false,
          slept := 0, forcedHealthRecheck := true }

/-- `HEALTH_CHECK_INTERVAL` in `start_worker` (30 seconds). -/
def HEALTH_CHECK_INTERVAL : Nat := 30

/-- The offline wait in `start_worker` (15 seconds, uploader.rs line 158). -/
def OFFLINE_SLEEP_SECS : Nat := 15

/-- The empty-queue wait in `start_worker` (2 seconds, uploader.rs line 282). -/
def EMPTY_QUEUE_SLEEP_SECS : Nat := 2

/-- The worker loop's local state: the manager plus the elapsed seconds since
`last_health_check` (time is modelled in whole seconds; only sleeps
contribute to elapsed time, network-call durations are taken as zero, which
only under-approximates the real elapsed time). -/
structure WorkerState where
  mgr : MgrState
  sinceCheck : Nat
deriving DecidableEq, Repr

/-- What one iteration of the worker loop did. -/
structure IterResult where
  w : WorkerState
  probed : Bool
  dequeued : Option QueueItem
  slept : Nat
deriving DecidableEq, Repr

/-- `start_worker` initial timing: `last_health_check = now - 60s`
(uploader.rs line 146), so the first iteration probes. -/
def WorkerState.start (m : MgrState) : WorkerState :=
  { mgr := m, sinceCheck := 60 }

/-- One iteration of the `loop` in `start_worker` (uploader.rs lines
149-285). `probe` is the outcome `check_server` would report if called this
iteration; `env` carries the effect outcomes of the attempt, if one happens.
Mirrors the source: the health probe runs only when at least
`HEALTH_CHECK_INTERVAL` elapsed since the last probe; a failed probe sets
the online flag false, sleeps 15 s and restarts the loop without touching
the queue; otherwise the front item (if any) is popped and processed by
`runAttempt`; an empty queue sleeps 2 s. -/
def loopIter (probe : Bool) (env : AttemptEnv) (w : WorkerState) : IterResult :=
  if HEALTH_CHECK_INTERVAL ≤ w.sinceCheck then
    let mgr1 : MgrState := { w.mgr with isOnline := probe }
    if !probe then
      { w := { mgr := mgr1, sinceCheck := OFFLINE_SLEEP_SECS },
        probed := true, dequeued := none, slept := OFFLINE_SLEEP_SECS }
    else
      match mgr1.queue with
      | [] =>
        { w := { mgr := mgr1, sinceCheck := EMPTY_QUEUE_SLEEP_SECS },
          probed := true, dequeued := none, slept := EMPTY_QUEUE_SLEEP_SECS }
      | item :: rest =>
        let res := runAttempt env item { mgr1 with queue := rest }
        { w := { mgr := res.mgr,
                 sinceCheck :=
                   if res.forcedHealthRecheck then HEALTH_CHECK_INTERVAL + res.slept
                   else res.slept },
          probed := true, dequeued := some item, slept := res.slept }
  else
    match w.mgr.queue with
    | [] =>
      { w := { mgr := w.mgr, sinceCheck := w.sinceCheck + EMPTY_QUEUE_SLEEP_SECS },
        probed := false, dequeued := none, slept := EMPTY_QUEUE_SLEEP_SECS }
    | item :: rest =>
      let res := runAttempt env item { w.mgr with queue := rest }
      { w := { mgr := res.mgr,
               sinceCheck :=
                 if res.forcedHealthRecheck then HEALTH_CHECK_INTERVAL + res.slept
                 else w.sinceCheck + res.slept },
        probed := false, dequeued := some item, slept := res.slept }

/-! ## The concurrent transition system

`lib.rs` (`start_services`) runs the startup scan and the watcher thread,
both of which call `UploadManager::enqueue`, concurrently with the worker
loop of `start_worker`. Every mutation of the shared manager state happens
under one of the four mutexes, so the system is modelled as an interleaving
of atomic steps: an `enq` step can occur between any two worker phases.
Each worker constructor below groups the consecutive manager updates of one
phase of the attempt (pop, mark-uploading, finalize), at the granularity
the claims need; the environment's nondeterminism (validation outcome,
upload outcome, message text) appears as constructor arguments. -/

/-- The shared manager state plus the item the worker currently holds
between popping it (uploader.rs line 166) and finishing the attempt. -/
structure SysState where
  mgr : MgrState
  inflight : Option QueueItem
deriving DecidableEq, Repr

def SysState.init : SysState := { mgr := MgrState.init, inflight := none }

/-- One atomic step of the system, parameterized by a guard `allowEnq`
restricting which enqueue interleavings are admitted (the full system uses
the trivial guard). Constructors:
* `enq` — `UploadManager::enqueue` called by the watcher/scan threads;
* `deq` — the worker pops the queue front, sets `is_uploading` and marks
  the record `Uploading` (uploader.rs lines 164-179);
* `valFail` — validation fails: record `Failed` with the reason, item
  dropped (lines 200-209);
* `upOk` — `upload_file` succeeded: record `Success` (lines 212-234; the
  post-upload disposition does not touch the manager state);
* `upFailRetry` — upload failed with retries left: record back to `Pending`
  with a message, item re-enqueued at the tail with the incremented retry
  count (lines 244-264);
* `upFailDrop` — upload failed with the budget exhausted: record `Failed`
  (lines 265-276). -/
inductive StepG (allowEnq : SysState → FPath → Prop) : SysState → SysState → Prop where
  | enq (s : SysState) (p : FPath) (ts : String) (hallow : allowEnq s p) :
      StepG allowEnq s { mgr := s.mgr.enqueue p ts, inflight := s.inflight }
  | deq (s : SysState) (i : QueueItem) (q : List QueueItem)
      (hfree : s.inflight = none) (hq : s.mgr.queue = i :: q) :
      StepG allowEnq s
        { mgr := { s.mgr with
                   queue := q,
                   isUploading := true,
                   recent := updateRecent i.path.fileName .Uploading none s.mgr.recent },
          inflight := some i }
  | valFail (s : SysState) (i : QueueItem) (reason : String)
      (hin : s.inflight = some i) :
      StepG allowEnq s
        { mgr := { s.mgr with
                   isUploading := false,
                   recent := updateRecent i.path.fileName .Failed (some reason) s.mgr.recent },
          inflight := none }
  | upOk (s : SysState) (i : QueueItem) (hin : s.inflight = some i) :
      StepG allowEnq s
        { mgr := { s.mgr with
                   isUploading := false,
                   recent := updateRecent i.path.fileName .Success none s.mgr.recent },
          inflight := none }
  | upFailRetry (s : SysState) (i : QueueItem) (msg : String)
      (hin : s.inflight = some i) (hr : i.retries + 1 < MAX_RETRIES) :
      StepG allowEnq s
        { mgr := { s.mgr with
                   isUploading := false,
                   recent := updateRecent i.path.fileName .Pending (some msg) s.mgr.recent,
                   queue := s.mgr.queue ++ [{ i with retries := i.retries + 1 }] },
          inflight := none }
  | upFailDrop (s : SysState) (i : QueueItem) (msg : String)
      (hin : s.inflight = some i) (hr : MAX_RETRIES ≤ i.retries + 1) :
      StepG allowEnq s
        { mgr := { s.mgr with
                   isUploading := false,
                   recent := updateRecent i.path.fileName .Failed (some msg) s.mgr.recent },
          inflight := none }

/-- The full system: any enqueue interleaving is admitted. -/
abbrev Step : SysState → SysState → Prop := StepG (fun _ _ => True)

abbrev Reachable (s : SysState) : Prop :=
  Relation.ReflTransGen Step SysState.init s

/-- Enqueue guard under which queue-path uniqueness is an invariant: no path
is enqueued while an item with that same path is in flight. -/
abbrev NoInflightRace (s : SysState) (p : FPath) : Prop :=
  ∀ i, s.inflight = some i → i.path ≠ p

abbrev StepSafe : SysState → SysState → Prop := StepG NoInflightRace

abbrev ReachableSafe (s : SysState) : Prop :=
  Relation.ReflTransGen StepSafe SysState.init s

/-- The paths of the items in the pending queue. -/
def queuePaths (s : SysState) : List FPath :=
  s.mgr.queue.map QueueItem.path

/-- The file names of the queued items plus the in-flight item. -/
def itemNames (s : SysState) : List String :=
  s.mgr.queue.map (fun i => i.path.fileName) ++
    (s.inflight.map (fun i => i.path.fileName)).toList

/-- Enqueue guard under which record statuses only move forward: every
enqueued path carries a file name different from every currently queued or
in-flight item's name (no *live* name collisions). Reusing the name of a
file whose processing already finished — one tracked only by a terminal
recent record, as in the spec §8 sequential `report.pdf` scenario — is
allowed. -/
abbrev FreshItemName (s : SysState) (p : FPath) : Prop :=
  p.fileName ∉ itemNames s

abbrev StepLive : SysState → SysState → Prop := StepG FreshItemName

abbrev ReachableLive (s : SysState) : Prop :=
  Relation.ReflTransGen StepLive SysState.init s

/-- The inductive invariant behind claim C1 (amended): queue paths are
pairwise distinct and the in-flight item's path is not in the queue. -/
def QueueInv (s : SysState) : Prop :=
  (queuePaths s).Nodup ∧ ∀ i, s.inflight = some i → i.path ∉ queuePaths s

/-- The inductive invariant behind claim C3 (amended): item names (queue
plus in-flight) are pairwise distinct, and for every live item name the
front-most recent record matching it — the one `iter_mut().find` would hit —
is non-terminal (older same-named records, necessarily terminal leftovers
of finished files, sit strictly behind it and are never matched first). -/
def LiveInv (s : SysState) : Prop :=
  (itemNames s).Nodup ∧
  ∀ n ∈ itemNames s, ∀ r₀,
    s.mgr.recent.find? (fun r => r.name = n) = some r₀ →
    ¬ r₀.status.isTerminal

/-! ## Concrete scenario values used by witnesses and counterexamples -/

def pdfPath : FPath := { dir := "inbox", base := "a.pdf" }

def reportPathA : FPath := { dir := "a", base := "report.pdf" }

def reportPathB : FPath := { dir := "b", base := "report.pdf" }

def sampleMgr : MgrState :=
  { queue := [{ path := pdfPath, retries := 0 }],
    recent := [{ name := "a.pdf", status := .Pending, timestamp := "t", error := none }],
    isUploading := false, isOnline := true }

/-- An environment in which the file is fine but the upload fails. -/
def failEnv : AttemptEnv :=
  { meta := some 1, uploadErr := some "err", userError := "x",
    deleteAfterUpload := true, removeErr := none, createDirErr := none,
    renameErr := none }

/-- An environment in which the file reads back empty. -/
def emptyFileEnv : AttemptEnv :=
  { meta := some 0, uploadErr := none, userError := "",
    deleteAfterUpload := true, removeErr := none, createDirErr := none,
    renameErr := none }

/-- An environment in which validation and the upload both succeed. -/
def okEnv : AttemptEnv :=
  { meta := some 1, uploadErr := none, userError := "",
    deleteAfterUpload := true, removeErr := none, createDirErr := none,
    renameErr := none }

/-- A different path that reuses the file name `a.pdf`. -/
def reusedPath : FPath := { dir := "inbox2", base := "a.pdf" }

/-- Trace states for the live-fresh-name scenario: enqueue `a.pdf`, dequeue
it, fail validation (terminal `Failed` record), then enqueue a
different-path file that reuses the now-free name `a.pdf`. -/
def wTrace1 : SysState :=
  { mgr := { queue := [{ path := pdfPath, retries := 0 }],
             recent := [{ name := "a.pdf", status := .Pending, timestamp := "t1",
                          error := none }],
             isUploading := false, isOnline := true },
    inflight := none }

def wTrace2 : SysState :=
  { mgr := { queue := [],
             recent := [{ name := "a.pdf", status := .Uploading, timestamp := "t1",
                          error := none }],
             isUploading := true, isOnline := true },
    inflight := some { path := pdfPath, retries := 0 } }

def wTrace3 : SysState :=
  { mgr := { queue := [],
             recent := [{ name := "a.pdf", status := .Failed, timestamp := "t1",
                          error := some "No se puede leer" }],
             isUploading := false, isOnline := true },
    inflight := none }

def wTrace4 : SysState :=
  { mgr := { queue := [{ path := reusedPath, retries := 0 }],
             recent := [{ name := "a.pdf", status := .Pending, timestamp := "t2",
                          error := none },
                        { name := "a.pdf", status := .Failed, timestamp := "t1",
                          error := some "No se puede leer" }],
             isUploading := false, isOnline := true },
    inflight := none }

/-! ## Helper lemmas about the recent-record operations -/

theorem trimAux_eq_take (fuel : Nat) (l : List RecentUpload)
    (h : l.length ≤ MAX_RECENT + fuel) : trimAux fuel l = l.take MAX_RECENT := by
  induction fuel generalizing l with
  | zero =>
    simp only [trimAux]
    exact (List.take_of_length_le (by omega)).symm
  | succ n ih =>
    simp only [trimAux]
    by_cases hlen : MAX_RECENT < l.length
    · rw [if_pos hlen, ih _ (by rw [List.length_dropLast]; omega)]
      rw [List.dropLast_eq_take, List.take_take]
      congr 1
      omega
    · rw [if_neg hlen]
      exact (List.take_of_length_le (by omega)).symm

theorem trimRecent_eq_take (l : List RecentUpload) :
    trimRecent l = l.take MAX_RECENT :=
  trimAux_eq_take l.length l (by omega)

theorem addRecent_eq_take (e : RecentUpload) (l : List RecentUpload) :
    addRecent e l = (e :: l).take MAX_RECENT :=
  trimRecent_eq_take _

theorem length_addRecent_le (e : RecentUpload) (l : List RecentUpload) :
    (addRecent e l).length ≤ MAX_RECENT := by
  rw [addRecent_eq_take, List.length_take]
  exact Nat.min_le_left _ _

theorem updateRecent_map_name (n : String) (st : UploadStatus) (e : Option String) :
    ∀ l : List RecentUpload,
      (updateRecent n st e l).map RecentUpload.name = l.map RecentUpload.name
  | [] => rfl
  | r :: rs => by
    by_cases h : r.name = n <;>
      simp [updateRecent, h, updateRecent_map_name n st e rs]

theorem length_updateRecent (n : String) (st : UploadStatus) (e : Option String)
    (l : List RecentUpload) : (updateRecent n st e l).length = l.length := by
  have h := congrArg List.length (updateRecent_map_name n st e l)
  simpa using h

theorem mem_updateRecent {n : String} {st : UploadStatus} {e : Option String} :
    ∀ {l : List RecentUpload} {r' : RecentUpload}, r' ∈ updateRecent n st e l →
      r' ∈ l ∨ (r'.name = n ∧ r'.status = st ∧ r'.error = e) := by
  intro l
  induction l with
  | nil => intro r' h; simp [updateRecent] at h
  | cons r rs ih =>
    intro r' h
    by_cases hn : r.name = n
    · simp only [updateRecent, if_pos hn] at h
      rcases List.mem_cons.mp h with h | h
      · exact Or.inr (by subst h; exact ⟨hn, rfl, rfl⟩)
      · exact Or.inl (List.mem_cons_of_mem _ h)
    · simp only [updateRecent, if_neg hn] at h
      rcases List.mem_cons.mp h with h | h
      · exact Or.inl (h ▸ List.mem_cons_self _ _)
      · rcases ih h with h | h
        · exact Or.inl (List.mem_cons_of_mem _ h)
        · exact Or.inr h

theorem mem_of_mem_updateRecent_ne {n : String} {st : UploadStatus} {e : Option String}
    {l : List RecentUpload} {r' : RecentUpload} (h : r' ∈ updateRecent n st e l)
    (hn : r'.name ≠ n) : r' ∈ l := by
  rcases mem_updateRecent h with h | h
  · exact h
  · exact absurd h.1 hn

theorem updateRecent_of_forall_ne {n : String} {st : UploadStatus} {e : Option String} :
    ∀ {l : List RecentUpload}, (∀ r ∈ l, r.name ≠ n) → updateRecent n st e l = l := by
  intro l
  induction l with
  | nil => intro _; rfl
  | cons r rs ih =>
    intro h
    have hr : r.name ≠ n := h r (List.mem_cons_self _ _)
    simp only [updateRecent, if_neg hr]
    rw [ih (fun r' hr' => h r' (List.mem_cons_of_mem _ hr'))]

/-! ## Claim theorems: backoff, readiness, enqueue, capacity, status update -/

/-- **C4.** For every failure count `k` (1-indexed) below the retry budget,
the backoff delay the Worker sleeps before the next attempt equals
`5 * 2^min(k,6)` seconds; the delay is monotonically non-decreasing in `k`
and capped at 320 seconds. The last conjunct ties the formula to the worker
body: an attempt whose upload fails with retries left sleeps exactly this
delay for the incremented retry count. -/
theorem backoff_delay_formula (k : Nat) (_h1 : 1 ≤ k) (h2 : k < MAX_RETRIES) :
    retryDelay k = 5 * 2 ^ (min k 6) ∧
    retryDelay k ≤ 320 ∧
    (∀ j, k ≤ j → retryDelay k ≤ retryDelay j) ∧
    (∀ (env : AttemptEnv) (item : QueueItem) (m : MgrState) (e : String),
      env.uploadErr = some e → validateFile env.meta = none →
      item.retries + 1 = k → (runAttempt env item m).slept = retryDelay k) := by
  refine ⟨rfl, ?_, ?_, ?_⟩
  · have hpow : 2 ^ min k 6 ≤ 2 ^ 6 :=
      Nat.pow_le_pow_right (by norm_num) (min_le_right k 6)
    simp only [retryDelay, RETRY_DELAY_BASE_SECS]
    omega
  · intro j hj
    have hpow : 2 ^ min k 6 ≤ 2 ^ min j 6 :=
      Nat.pow_le_pow_right (by norm_num) (min_le_min hj (le_refl 6))
    simp only [retryDelay]
    exact Nat.mul_le_mul_left _ hpow
  · intro env item m e hup hval hk
    simp only [runAttempt, hval, hup, hk]
    rw [if_pos h2]

/-- Witness for `backoff_delay_formula` at `k = 3`. -/
theorem backoff_delay_formula_witness : retryDelay 3 ≤ 320 :=
  (backoff_delay_formula 3 (by decide) (by decide)).2.1

/-- **C8.** The Readiness Prober judges a file ready iff the two size
samples are equal and non-zero; a metadata read failure on either sample,
or a zero first sample, yields not-ready; and the live watch path emits a
path only when the prober judged it ready. -/
theorem file_ready_iff (first second : Option Nat) :
    (isFileReady first second = true ↔
      ∃ n, first = some n ∧ second = some n ∧ 0 < n) ∧
    isFileReady none second = false ∧
    isFileReady first none = false ∧
    isFileReady (some 0) second = false ∧
    (∀ ignored isFile parentIsInbox : Bool,
      watchEmits ignored isFile parentIsInbox first second = true →
      isFileReady first second = true) := by
  refine ⟨?_, ?_, ?_, ?_, ?_⟩
  · cases first with
    | none => simp [isFileReady]
    | some a =>
      cases second with
      | none => simp [isFileReady]
      | some b =>
        simp only [isFileReady, Bool.and_eq_true, beq_iff_eq, decide_eq_true_eq,
          Option.some.injEq]
        constructor
        · rintro ⟨rfl, hpos⟩
          exact ⟨a, rfl, rfl, hpos⟩
        · rintro ⟨n, rfl, hb, hpos⟩
          exact ⟨hb.symm, hpos⟩
  · simp [isFileReady]
  · cases first <;> simp [isFileReady]
  · cases second <;> simp [isFileReady]
  · intro ignored isFile parentIsInbox h
    simp only [watchEmits, Bool.and_eq_true] at h
    exact h.2

/-- Witness for `file_ready_iff`: equal non-zero samples are ready. -/
theorem file_ready_iff_witness : isFileReady (some 7) (some 7) = true :=
  (file_ready_iff (some 7) (some 7)).1.mpr ⟨7, rfl, rfl, by decide⟩

/-- **C6.** Enqueueing the same path twice before it is dequeued is a
complete no-op the second time: the manager state is unchanged, so in
particular the queue length is unchanged and no new RecentUploadRecord is
added. -/
theorem enqueue_idempotent (m : MgrState) (p : FPath) (t1 t2 : String) :
    (m.enqueue p t1).enqueue p t2 = m.enqueue p t1 ∧
    ((m.enqueue p t1).enqueue p t2).queue.length = (m.enqueue p t1).queue.length ∧
    ((m.enqueue p t1).enqueue p t2).recent = (m.enqueue p t1).recent := by
  have key : (m.enqueue p t1).enqueue p t2 = m.enqueue p t1 := by
    by_cases h : (m.queue.any fun item => item.path = p) = true
    · have e1 : m.enqueue p t1 = m := by rw [MgrState.enqueue, if_pos h]
      rw [e1, MgrState.enqueue, if_pos h]
    · have e1 : m.enqueue p t1 =
          { m with
            recent := addRecent
              { name := p.fileName, status := .Pending, timestamp := t1, error := none }
              m.recent,
            queue := m.queue ++ [{ path := p, retries := 0 }] } := by
        rw [MgrState.enqueue, if_neg h]
      have h2 : ((m.queue ++ [({ path := p, retries := 0 } : QueueItem)]).any
          fun item => item.path = p) = true := by
        simp
      rw [e1, MgrState.enqueue]
      simp only [h2, if_true]
  exact ⟨key, by rw [key], by rw [key]⟩

/-- Recent-list length is preserved below capacity by any run of enqueues. -/
theorem foldl_enqueue_recent_le (ops : List (FPath × String)) :
    ∀ m : MgrState, m.recent.length ≤ MAX_RECENT →
      ((ops.foldl (fun m pt => m.enqueue pt.1 pt.2) m).recent).length ≤ MAX_RECENT := by
  induction ops with
  | nil => intro m h; simpa using h
  | cons op rest ih =>
    intro m h
    simp only [List.foldl_cons]
    apply ih
    rw [MgrState.enqueue]
    split
    · exact h
    · simpa using length_addRecent_le _ _

/-- **C7.** For every sequence of enqueue operations from the initial state,
the recent-record list's length never exceeds the capacity 15; and
`add_recent` is head insertion followed by eviction of the back-most
(oldest) entries, i.e. it keeps exactly the first `MAX_RECENT` entries of
the new most-recent-first list. -/
theorem recent_capacity (ops : List (FPath × String)) :
    ((ops.foldl (fun m pt => m.enqueue pt.1 pt.2) MgrState.init).recent).length
      ≤ MAX_RECENT ∧
    (∀ (e : RecentUpload) (l : List RecentUpload),
      addRecent e l = (e :: l).take MAX_RECENT) := by
  refine ⟨foldl_enqueue_recent_le ops MgrState.init (by simp [MgrState.init]), ?_⟩
  intro e l
  exact addRecent_eq_take e l

/-- **C9.** `update_recent_status_with_error` either leaves the list
unchanged (when no record's name matches) or rewrites exactly the
front-most (most recent) matching record in place — every record before it
has a different name, and every record after it, and the prefix itself, are
returned unchanged; the length is always preserved. -/
theorem updateRecent_frontmost (name : String) (st : UploadStatus)
    (err : Option String) (l : List RecentUpload) :
    (((∀ r ∈ l, r.name ≠ name) ∧ updateRecent name st err l = l) ∨
      (∃ l₁ r l₂, l = l₁ ++ r :: l₂ ∧ (∀ r' ∈ l₁, r'.name ≠ name) ∧ r.name = name ∧
        updateRecent name st err l =
          l₁ ++ { r with status := st, error := err } :: l₂)) ∧
    (updateRecent name st err l).length = l.length := by
  refine ⟨?_, length_updateRecent name st err l⟩
  induction l with
  | nil => exact Or.inl ⟨by simp, rfl⟩
  | cons r rs ih =>
    by_cases h : r.name = name
    · exact Or.inr ⟨[], r, rs, rfl, by simp, h, by simp [updateRecent, h]⟩
    · rcases ih with ⟨hall, heq⟩ | ⟨l₁, r₀, l₂, heq, hall, hname, hupd⟩
      · refine Or.inl ⟨?_, by simp [updateRecent, h, heq]⟩
        intro r' hr'
        rcases List.mem_cons.mp hr' with rfl | hr'
        · exact h
        · exact hall r' hr'
      · refine Or.inr ⟨r :: l₁, r₀, l₂, by simp [heq], ?_, hname,
          by simp [updateRecent, h, hupd]⟩
        intro r' hr'
        rcases List.mem_cons.mp hr' with rfl | hr'
        · exact h
        · exact hall r' hr'

/-- Witness for `updateRecent_frontmost` at a concrete two-record list with
colliding names: the front-most record is the one rewritten. -/
theorem updateRecent_frontmost_witness :
    (((∀ r ∈ [({ name := "n", status := .Pending, timestamp := "t2", error := none } :
          RecentUpload), { name := "n", status := .Success, timestamp := "t1", error := none }],
        r.name ≠ "n") ∧
      updateRecent "n" .Uploading none
        [{ name := "n", status := .Pending, timestamp := "t2", error := none },
         { name := "n", status := .Success, timestamp := "t1", error := none }] =
        [{ name := "n", status := .Pending, timestamp := "t2", error := none },
         { name := "n", status := .Success, timestamp := "t1", error := none }]) ∨
      (∃ l₁ r l₂,
        [({ name := "n", status := .Pending, timestamp := "t2", error := none } :
          RecentUpload), { name := "n", status := .Success, timestamp := "t1", error := none }] =
          l₁ ++ r :: l₂ ∧ (∀ r' ∈ l₁, r'.name ≠ "n") ∧ r.name = "n" ∧
        updateRecent "n" .Uploading none
          [{ name := "n", status := .Pending, timestamp := "t2", error := none },
           { name := "n", status := .Success, timestamp := "t1", error := none }] =
          l₁ ++ { r with status := .Uploading, error := none } :: l₂)) ∧
    (updateRecent "n" .Uploading none
      [{ name := "n", status := .Pending, timestamp := "t2", error := none },
       { name := "n", status := .Success, timestamp := "t1", error := none }]).length =
      ([({ name := "n", status := .Pending, timestamp := "t2", error := none } :
        RecentUpload), { name := "n", status := .Success, timestamp := "t1", error := none }]).length :=
  updateRecent_frontmost "n" .Uploading none _

/-! ## Claim theorems: worker attempt (validation, success disposition) -/

/-- **C5.** For every dequeued item whose file has size 0, whose metadata
cannot be read, or whose size exceeds 200 MiB, the upload step is never
invoked: validation yields a reason, the record is set to `Failed` carrying
it, the item is not re-enqueued (the queue is exactly what it was after the
pop, so the item is dropped), no retry is consumed and no backoff sleep
happens. -/
theorem validation_failure_skips_upload (env : AttemptEnv) (item : QueueItem)
    (m : MgrState)
    (h : env.meta = none ∨ env.meta = some 0 ∨
      ∃ sz, env.meta = some sz ∧ MAX_FILE_SIZE < sz) :
    ∃ reason, validateFile env.meta = some reason ∧
      (runAttempt env item m).uploadInvoked = false ∧
      (runAttempt env item m).requeued = false ∧
      (runAttempt env item m).mgr.queue = m.queue ∧
      (runAttempt env item m).slept = 0 ∧
      (runAttempt env item m).attemptedDelete = false ∧
      (runAttempt env item m).attemptedMove = false ∧
      (runAttempt env item m).mgr.recent =
        updateRecent item.path.fileName .Failed (some reason)
          (updateRecent item.path.fileName .Uploading none m.recent) := by
  have hval : ∃ reason, validateFile env.meta = some reason := by
    rcases h with h | h | ⟨sz, h, hsz⟩
    · exact ⟨_, by rw [h]; rfl⟩
    · exact ⟨_, by rw [h]; rfl⟩
    · refine ⟨"Archivo demasiado grande", ?_⟩
      rw [h]
      have hne : sz ≠ 0 := by
        have : 0 < MAX_FILE_SIZE := by norm_num [MAX_FILE_SIZE]
        omega
      simp [validateFile, hne, hsz]
  obtain ⟨reason, hr⟩ := hval
  exact ⟨reason, hr, by simp [runAttempt, hr], by simp [runAttempt, hr],
    by simp [runAttempt, hr], by simp [runAttempt, hr], by simp [runAttempt, hr],
    by simp [runAttempt, hr], by simp [runAttempt, hr]⟩

/-- Witness for `validation_failure_skips_upload`: a zero-size file. -/
theorem validation_failure_skips_upload_witness :
    ∃ reason, validateFile emptyFileEnv.meta = some reason ∧
      (runAttempt emptyFileEnv { path := pdfPath, retries := 0 } sampleMgr).uploadInvoked
        = false ∧
      (runAttempt emptyFileEnv { path := pdfPath, retries := 0 } sampleMgr).requeued
        = false ∧
      (runAttempt emptyFileEnv { path := pdfPath, retries := 0 } sampleMgr).mgr.queue
        = sampleMgr.queue ∧
      (runAttempt emptyFileEnv { path := pdfPath, retries := 0 } sampleMgr).slept = 0 ∧
      (runAttempt emptyFileEnv { path := pdfPath, retries := 0 } sampleMgr).attemptedDelete
        = false ∧
      (runAttempt emptyFileEnv { path := pdfPath, retries := 0 } sampleMgr).attemptedMove
        = false ∧
      (runAttempt emptyFileEnv { path := pdfPath, retries := 0 } sampleMgr).mgr.recent =
        updateRecent (FPath.fileName pdfPath) .Failed (some reason)
          (updateRecent (FPath.fileName pdfPath) .Uploading none sampleMgr.recent) :=
  validation_failure_skips_upload emptyFileEnv { path := pdfPath, retries := 0 }
    sampleMgr (Or.inr (Or.inl rfl))

/-- **C10.** For every successfully uploaded item the record is marked
`Success`, exactly one post-upload disposition branch runs — delete when
configured, otherwise the move-to-archive branch — never both, the item is
not re-enqueued, and the manager state (in particular the `Success` record)
does not depend on whether the delete / create-dir / rename operations
fail. -/
theorem success_single_disposition (env : AttemptEnv) (item : QueueItem)
    (m : MgrState) (hval : validateFile env.meta = none)
    (hup : env.uploadErr = none) :
    (runAttempt env item m).mgr.recent =
      updateRecent item.path.fileName .Success none
        (updateRecent item.path.fileName .Uploading none m.recent) ∧
    (runAttempt env item m).attemptedDelete = env.deleteAfterUpload ∧
    (runAttempt env item m).attemptedMove = !env.deleteAfterUpload ∧
    ¬((runAttempt env item m).attemptedDelete = true ∧
      (runAttempt env item m).attemptedMove = true) ∧
    (runAttempt env item m).requeued = false ∧
    (runAttempt env item m).mgr.queue = m.queue ∧
    (∀ rm cd rn : Option String,
      (runAttempt { env with removeErr := rm, createDirErr := cd, renameErr := rn }
        item m).mgr = (runAttempt env item m).mgr) := by
  by_cases hd : env.deleteAfterUpload = true
  · refine ⟨?_, ?_, ?_, ?_, ?_, ?_, ?_⟩ <;>
      simp [runAttempt, hval, hup, hd]
  · have hd' : env.deleteAfterUpload = false := by
      revert hd; cases env.deleteAfterUpload <;> simp
    refine ⟨?_, ?_, ?_, ?_, ?_, ?_, ?_⟩ <;>
      simp [runAttempt, hval, hup, hd']

/-- Witness for `success_single_disposition`: delete configured, record
marked Success and only the delete branch runs. -/
theorem success_single_disposition_witness :
    (runAttempt okEnv { path := pdfPath, retries := 0 } sampleMgr).attemptedDelete
        = true ∧
      (runAttempt okEnv { path := pdfPath, retries := 0 } sampleMgr).attemptedMove
        = false := by
  have h := success_single_disposition okEnv { path := pdfPath, retries := 0 }
    sampleMgr (by decide) (by decide)
  exact ⟨by simpa using h.2.1, by simpa using h.2.2.1⟩

/-! ## Claim theorems: the worker loop's offline behaviour -/

/-- **C2 (amended).** In an iteration in which the health probe runs
(≥ 30 s since the last probe) and fails, the Worker sets the online flag to
offline, leaves the queue and the recent list untouched, dequeues nothing
and sleeps 15 s. However the probe is *not* retried after that sleep: the
next iteration finds the probe only 15 s old (below the 30 s interval), so
it performs no probe — whatever the offline flag says, it proceeds to the
queue. -/
theorem offline_probe_iteration (w : WorkerState) (env : AttemptEnv)
    (h : HEALTH_CHECK_INTERVAL ≤ w.sinceCheck) :
    (loopIter false env w).probed = true ∧
    (loopIter false env w).w.mgr.isOnline = false ∧
    (loopIter false env w).w.mgr.queue = w.mgr.queue ∧
    (loopIter false env w).w.mgr.recent = w.mgr.recent ∧
    (loopIter false env w).dequeued = none ∧
    (loopIter false env w).slept = OFFLINE_SLEEP_SECS ∧
    (loopIter false env w).w.sinceCheck = OFFLINE_SLEEP_SECS ∧
    (∀ (p' : Bool) (env' : AttemptEnv),
      (loopIter p' env' (loopIter false env w).w).probed = false) := by
  have hiter : loopIter false env w =
      { w := { mgr := { w.mgr with isOnline := false },
               sinceCheck := OFFLINE_SLEEP_SECS },
        probed := true, dequeued := none, slept := OFFLINE_SLEEP_SECS } := by
    rw [loopIter, if_pos h]
    rfl
  refine ⟨by rw [hiter], by rw [hiter], by rw [hiter], by rw [hiter],
    by rw [hiter], by rw [hiter], by rw [hiter], ?_⟩
  intro p' env'
  rw [hiter]
  have hlt : ¬ HEALTH_CHECK_INTERVAL ≤ OFFLINE_SLEEP_SECS := by decide
  rw [loopIter]
  simp only [hlt, if_false]
  cases hq : ({ w.mgr with isOnline := false } : MgrState).queue <;> simp [hq]

/-- Witness for `offline_probe_iteration` at the concrete start state. -/
theorem offline_probe_iteration_witness :
    (loopIter false failEnv (WorkerState.start sampleMgr)).dequeued = none :=
  (offline_probe_iteration (WorkerState.start sampleMgr) failEnv
    (by decide)).2.2.2.2.1

/-- **C2 (counterexample).** After a failed probe and the 15 s sleep, the
very next iteration does *not* retry the health probe (15 s < 30 s
staleness interval) and it dequeues an item even though the online flag is
still false — refuting "retries the health probe after sleeping 15
seconds" and "only after a probe reports online does it resume
dequeuing". -/
theorem offline_dequeue_without_reprobe :
    (loopIter false failEnv (WorkerState.start sampleMgr)).probed = true ∧
    (loopIter false failEnv (WorkerState.start sampleMgr)).w.mgr.isOnline = false ∧
    (loopIter false failEnv
      (loopIter false failEnv (WorkerState.start sampleMgr)).w).probed = false ∧
    (loopIter false failEnv
      (loopIter false failEnv (WorkerState.start sampleMgr)).w).dequeued =
      some { path := pdfPath, retries := 0 } := by
  decide

/-! ## Claim theorems: queue-path uniqueness (C1) -/

/-- `UploadManager::enqueue` when the path is already queued: no-op. -/
theorem enqueue_of_mem (m : MgrState) (p : FPath) (ts : String)
    (h : p ∈ m.queue.map QueueItem.path) : m.enqueue p ts = m := by
  have hb : (m.queue.any fun item => item.path = p) = true := by
    simp only [List.any_eq_true, decide_eq_true_eq]
    rcases List.mem_map.mp h with ⟨i, hi, hip⟩
    exact ⟨i, hi, hip⟩
  rw [MgrState.enqueue, if_pos hb]

/-- `UploadManager::enqueue` when the path is absent: record plus tail push. -/
theorem enqueue_of_not_mem (m : MgrState) (p : FPath) (ts : String)
    (h : p ∉ m.queue.map QueueItem.path) :
    m.enqueue p ts =
      { m with
        recent := addRecent
          { name := p.fileName, status := .Pending, timestamp := ts, error := none }
          m.recent,
        queue := m.queue ++ [{ path := p, retries := 0 }] } := by
  have hb : ¬ (m.queue.any fun item => item.path = p) = true := by
    simp only [List.any_eq_true, decide_eq_true_eq]
    rintro ⟨i, hi, hip⟩
    exact h (List.mem_map.mpr ⟨i, hi, hip⟩)
  rw [MgrState.enqueue, if_neg hb]

theorem queueInv_init : QueueInv SysState.init := by
  constructor
  · simp [queuePaths, SysState.init, MgrState.init]
  · intro i h
    simp [SysState.init] at h

theorem queueInv_step {s s' : SysState} (hstep : StepSafe s s') (hinv : QueueInv s) :
    QueueInv s' := by
  obtain ⟨hnd, hinf⟩ := hinv
  simp only [queuePaths] at hnd hinf
  cases hstep with
  | enq p ts hallow =>
    by_cases hmem : p ∈ s.mgr.queue.map QueueItem.path
    · have he := enqueue_of_mem s.mgr p ts hmem
      refine ⟨?_, ?_⟩
      · simpa [queuePaths, he] using hnd
      · intro i hi
        simp only at hi
        simpa [queuePaths, he] using hinf i hi
    · have he := enqueue_of_not_mem s.mgr p ts hmem
      refine ⟨?_, ?_⟩
      · simp only [queuePaths, he, List.map_append, List.map_cons, List.map_nil]
        rw [List.nodup_append]
        refine ⟨hnd, List.nodup_singleton p, ?_⟩
        intro a ha hb
        rw [List.mem_singleton] at hb
        subst hb
        exact hmem ha
      · intro i hi
        simp only at hi
        have h1 := hinf i hi
        have h2 := hallow i hi
        simp only [queuePaths, he, List.map_append, List.map_cons, List.map_nil,
          List.mem_append, List.mem_singleton]
        rintro (h | h)
        · exact h1 h
        · exact h2 h
  | deq i q hfree hq =>
    have hcons : (i.path :: q.map QueueItem.path).Nodup := by
      simpa [hq] using hnd
    refine ⟨?_, ?_⟩
    · exact (List.nodup_cons.mp hcons).2
    · intro j hj
      simp only [Option.some.injEq] at hj
      subst hj
      simpa [queuePaths] using (List.nodup_cons.mp hcons).1
  | valFail i reason hin =>
    refine ⟨by simpa [queuePaths] using hnd, ?_⟩
    intro j hj
    simp at hj
  | upOk i hin =>
    refine ⟨by simpa [queuePaths] using hnd, ?_⟩
    intro j hj
    simp at hj
  | upFailRetry i msg hin hr =>
    refine ⟨?_, ?_⟩
    · simp only [queuePaths, List.map_append, List.map_cons, List.map_nil]
      rw [List.nodup_append]
      refine ⟨hnd, List.nodup_singleton _, ?_⟩
      intro a ha hb
      rw [List.mem_singleton] at hb
      subst hb
      exact hinf i hin ha
    · intro j hj
      simp at hj
  | upFailDrop i msg hin hr =>
    refine ⟨by simpa [queuePaths] using hnd, ?_⟩
    intro j hj
    simp at hj

theorem queueInv_reachable (s : SysState) (h : ReachableSafe s) : QueueInv s := by
  induction h with
  | refl => exact queueInv_init
  | tail hsteps hstep ih => exact queueInv_step hstep ih

/-- **C1 (amended).** In every state reachable by enqueue steps that never
enqueue a path equal to the in-flight item's path (`StepSafe`), no two
QueueItems in the pending queue share the same path: enqueue itself dedups
against the queue, and under this proviso the worker's re-enqueue of a
failed item also preserves uniqueness. -/
theorem queue_paths_nodup_without_inflight_race (s : SysState)
    (h : ReachableSafe s) : (s.mgr.queue.map QueueItem.path).Nodup := by
  have hinv := queueInv_reachable s h
  simpa [queuePaths] using hinv.1

/-- Witness for `queue_paths_nodup_without_inflight_race` after one safe
enqueue step. -/
theorem queue_paths_nodup_without_inflight_race_witness :
    (({ mgr := SysState.init.mgr.enqueue pdfPath "t1",
        inflight := SysState.init.inflight } : SysState).mgr.queue.map
      QueueItem.path).Nodup :=
  queue_paths_nodup_without_inflight_race _
    (Relation.ReflTransGen.single
      (StepG.enq SysState.init pdfPath "t1" (fun i hi => by
        simp [SysState.init] at hi)))

/-- **C1 (counterexample).** The dedup check in `enqueue` only inspects the
queue, not the in-flight item, and the worker's re-enqueue performs no
dedup at all. Hence the trace enqueue `a.pdf` → worker dequeues it →
watcher enqueues `a.pdf` again (it is no longer in the queue) → upload
fails and the worker re-enqueues it reaches a state whose queue holds two
items with the same path — refuting the claimed invariant for the full
system. -/
theorem requeue_duplicates_inflight_path :
    ∃ s : SysState, Reachable s ∧
      s.mgr.queue.map QueueItem.path = [pdfPath, pdfPath] ∧
      ¬ (s.mgr.queue.map QueueItem.path).Nodup := by
  refine ⟨_, Relation.ReflTransGen.head (StepG.enq SysState.init pdfPath "t1" trivial)
    (Relation.ReflTransGen.head
      (StepG.deq _ { path := pdfPath, retries := 0 } [] rfl (by decide))
      (Relation.ReflTransGen.head (StepG.enq _ pdfPath "t2" trivial)
        (Relation.ReflTransGen.single
          (StepG.upFailRetry _ { path := pdfPath, retries := 0 } "m"
            (by decide) (by decide))))), ?_, ?_⟩
  · decide
  · decide

/-! ## Claim theorems: forward-only status transitions (C3) -/

theorem nodup_middle_singleton {α : Type} {A B : List α} {x : α}
    (h : (A ++ B).Nodup) (hx : x ∉ A ++ B) : ((A ++ [x]) ++ B).Nodup := by
  have hperm : ((A ++ [x]) ++ B).Perm ((A ++ B) ++ [x]) := by
    have hp := List.Perm.append_left A (@List.perm_append_comm _ [x] B)
    simpa [List.append_assoc] using hp
  rw [hperm.nodup_iff, List.nodup_append]
  refine ⟨h, List.nodup_singleton x, ?_⟩
  intro a ha hb
  rw [List.mem_singleton] at hb
  subst hb
  exact hx ha

theorem updateRecent_find?_self (n : String) (st : UploadStatus) (e : Option String) :
    ∀ l : List RecentUpload,
      (updateRecent n st e l).find? (fun r => r.name = n) =
        (l.find? (fun r => r.name = n)).map
          (fun r => { r with status := st, error := e }) := by
  intro l
  induction l with
  | nil => simp [updateRecent]
  | cons x xs ih =>
    by_cases hx : x.name = n
    · have e1 : updateRecent n st e (x :: xs) =
          { x with status := st, error := e } :: xs := by
        simp [updateRecent, hx]
      rw [e1, List.find?_cons_of_pos _ (by simpa using hx),
        List.find?_cons_of_pos _ (by simpa using hx)]
      rfl
    · have e1 : updateRecent n st e (x :: xs) = x :: updateRecent n st e xs := by
        simp [updateRecent, hx]
      rw [e1, List.find?_cons_of_neg _ (by simpa using hx),
        List.find?_cons_of_neg _ (by simpa using hx)]
      exact ih

theorem updateRecent_find?_ne (n m : String) (st : UploadStatus) (e : Option String)
    (hnm : m ≠ n) :
    ∀ l : List RecentUpload,
      (updateRecent n st e l).find? (fun r => r.name = m) =
        l.find? (fun r => r.name = m) := by
  intro l
  induction l with
  | nil => simp [updateRecent]
  | cons x xs ih =>
    by_cases hx : x.name = n
    · have e1 : updateRecent n st e (x :: xs) =
          { x with status := st, error := e } :: xs := by
        simp [updateRecent, hx]
      have hxm : ¬ x.name = m := fun h => hnm ((h.symm.trans hx).symm).symm
      rw [e1, List.find?_cons_of_neg _ (by simpa using hxm),
        List.find?_cons_of_neg _ (by simpa using hxm)]
    · have e1 : updateRecent n st e (x :: xs) = x :: updateRecent n st e xs := by
        simp [updateRecent, hx]
      by_cases hxm : x.name = m
      · rw [e1, List.find?_cons_of_pos _ (by simpa using hxm),
          List.find?_cons_of_pos _ (by simpa using hxm)]
      · rw [e1, List.find?_cons_of_neg _ (by simpa using hxm),
          List.find?_cons_of_neg _ (by simpa using hxm)]
        exact ih

theorem find?_take_eq_some {α : Type} (p : α → Bool) :
    ∀ (l : List α) (k : Nat) (a : α), (l.take k).find? p = some a →
      l.find? p = some a := by
  intro l
  induction l with
  | nil => intro k a h; simp at h
  | cons x xs ih =>
    intro k a h
    cases k with
    | zero => simp at h
    | succ k =>
      rw [List.take_succ_cons] at h
      by_cases hx : p x = true
      · rw [List.find?_cons_of_pos _ hx] at h ⊢
        exact h
      · rw [List.find?_cons_of_neg _ (by simpa using hx)] at h ⊢
        exact ih k a h

/-- If position `j` of the list holds a terminal record and the record the
update would hit (the front-most `n`-match) is non-terminal, then the update
leaves position `j` exactly as it was. -/
theorem updateRecent_getElem?_of_terminal (n : String) (st : UploadStatus)
    (e : Option String) :
    ∀ (l : List RecentUpload) (j : Nat) (r : RecentUpload),
      l[j]? = some r → r.status.isTerminal →
      (∀ r₀, l.find? (fun x => x.name = n) = some r₀ → ¬ r₀.status.isTerminal) →
      (updateRecent n st e l)[j]? = some r := by
  intro l
  induction l with
  | nil => intro j r hj _ _; simp at hj
  | cons x xs ih =>
    intro j r hj hterm hfind
    by_cases hx : x.name = n
    · have hfx : (x :: xs).find? (fun y => y.name = n) = some x :=
        List.find?_cons_of_pos _ (by simpa using hx)
      have hxnt := hfind x hfx
      cases j with
      | zero =>
        rw [List.getElem?_cons_zero, Option.some.injEq] at hj
        exact absurd (hj ▸ hterm) hxnt
      | succ k =>
        rw [List.getElem?_cons_succ] at hj
        simp only [updateRecent, if_pos hx, List.getElem?_cons_succ]
        exact hj
    · have hfind' : ∀ r₀, xs.find? (fun y => y.name = n) = some r₀ →
          ¬ r₀.status.isTerminal := by
        intro r₀ h₀
        refine hfind r₀ ?_
        rw [List.find?_cons_of_neg _ (by simpa using hx)]
        exact h₀
      cases j with
      | zero =>
        rw [List.getElem?_cons_zero] at hj
        simp only [updateRecent, if_neg hx, List.getElem?_cons_zero]
        exact hj
      | succ k =>
        rw [List.getElem?_cons_succ] at hj
        simp only [updateRecent, if_neg hx, List.getElem?_cons_succ]
        exact ih k r hj hterm hfind'

theorem liveInv_init : LiveInv SysState.init := by
  refine ⟨by simp [itemNames, SysState.init, MgrState.init], ?_⟩
  intro n hn
  simp [itemNames, SysState.init, MgrState.init] at hn

theorem liveInv_step {s s' : SysState} (hstep : StepLive s s') (hinv : LiveInv s) :
    LiveInv s' := by
  obtain ⟨h2, h3⟩ := hinv
  cases hstep with
  | enq p ts hallow =>
    by_cases hmem : p ∈ s.mgr.queue.map QueueItem.path
    · have he := enqueue_of_mem s.mgr p ts hmem
      refine ⟨by simpa [itemNames, he] using h2, ?_⟩
      intro n hn r₀ h₀
      simp only [he] at h₀
      exact h3 n (by simpa [itemNames, he] using hn) r₀ h₀
    · have hallow' : p.fileName ∉ itemNames s := hallow
      have he := enqueue_of_not_mem s.mgr p ts hmem
      refine ⟨?_, ?_⟩
      · simp only [itemNames, he, List.map_append, List.map_cons, List.map_nil]
        exact nodup_middle_singleton (by simpa [itemNames] using h2)
          (by simpa [itemNames] using hallow')
      · intro n hn r₀ h₀
        have htake : (MgrState.enqueue p ts s.mgr).recent =
            { name := p.fileName, status := .Pending, timestamp := ts,
              error := none } :: s.mgr.recent.take 14 := by
          rw [he]
          show addRecent _ _ = _
          rw [addRecent_eq_take]
          rfl
        rw [htake] at h₀
        have hn' : n = p.fileName ∨ n ∈ itemNames s := by
          simp only [itemNames, he, List.map_append, List.map_cons, List.map_nil,
            List.mem_append, List.mem_singleton] at hn
          rcases hn with (hq | hx) | hi
          · exact Or.inr (by simp [itemNames, List.mem_append, hq])
          · exact Or.inl hx
          · exact Or.inr (by simp [itemNames, List.mem_append, hi])
        rcases hn' with rfl | hn'
        · rw [List.find?_cons_of_pos _ (by simp)] at h₀
          rw [Option.some.injEq] at h₀
          subst h₀
          simp [UploadStatus.isTerminal]
        · have hne : p.fileName ≠ n := fun hcontra => hallow' (hcontra ▸ hn')
          rw [List.find?_cons_of_neg _ (by simpa using hne)] at h₀
          exact h3 n hn' r₀ (find?_take_eq_some _ _ _ _ h₀)
  | deq i q hfree hq =>
    refine ⟨?_, ?_⟩
    · have h2' : (i.path.fileName :: q.map (fun j => j.path.fileName)).Nodup := by
        simpa [itemNames, hq, hfree] using h2
      simp only [itemNames, List.map_cons]
      have hperm : (i.path.fileName :: q.map (fun j => j.path.fileName)).Perm
          (q.map (fun j => j.path.fileName) ++ [i.path.fileName]) := by
        simpa using
          (@List.perm_append_comm _ [i.path.fileName] (q.map (fun j => j.path.fileName)))
      simpa using hperm.nodup_iff.mp h2'
    · intro n hn r₀ h₀
      have hn' : n ∈ (q.map (fun j => j.path.fileName) ++ [i.path.fileName]) := by
        simpa [itemNames] using hn
      have hnS : n ∈ itemNames s := by
        rw [itemNames, hq, hfree]
        rcases List.mem_append.mp hn' with hA | hB
        · refine List.mem_append_left _ ?_
          rw [List.map_cons]
          exact List.mem_cons_of_mem _ hA
        · refine List.mem_append_left _ ?_
          rw [List.map_cons, List.mem_singleton.mp hB]
          exact List.mem_cons_self _ _
      by_cases hnn : n = i.path.fileName
      · subst hnn
        rw [updateRecent_find?_self] at h₀
        rcases Option.map_eq_some'.mp h₀ with ⟨r₁, _, hr₁⟩
        subst hr₁
        simp [UploadStatus.isTerminal]
      · rw [updateRecent_find?_ne _ _ _ _ hnn] at h₀
        exact h3 n hnS r₀ h₀
  | valFail i reason hin =>
    have h2' : (s.mgr.queue.map (fun j => j.path.fileName) ++
        [i.path.fileName]).Nodup := by
      simpa [itemNames, hin] using h2
    refine ⟨?_, ?_⟩
    · simp only [itemNames]
      simpa using (List.nodup_append.mp h2').1
    · intro n hn r₀ h₀
      have hnq : n ∈ s.mgr.queue.map (fun j => j.path.fileName) := by
        simpa [itemNames] using hn
      have hnn : n ≠ i.path.fileName := by
        intro hcontra
        exact (List.nodup_append.mp h2').2.2 (hcontra ▸ hnq)
          (List.mem_singleton.mpr rfl)
      rw [updateRecent_find?_ne _ _ _ _ hnn] at h₀
      exact h3 n (by simp [itemNames, hin, List.mem_append, hnq]) r₀ h₀
  | upOk i hin =>
    have h2' : (s.mgr.queue.map (fun j => j.path.fileName) ++
        [i.path.fileName]).Nodup := by
      simpa [itemNames, hin] using h2
    refine ⟨?_, ?_⟩
    · simp only [itemNames]
      simpa using (List.nodup_append.mp h2').1
    · intro n hn r₀ h₀
      have hnq : n ∈ s.mgr.queue.map (fun j => j.path.fileName) := by
        simpa [itemNames] using hn
      have hnn : n ≠ i.path.fileName := by
        intro hcontra
        exact (List.nodup_append.mp h2').2.2 (hcontra ▸ hnq)
          (List.mem_singleton.mpr rfl)
      rw [updateRecent_find?_ne _ _ _ _ hnn] at h₀
      exact h3 n (by simp [itemNames, hin, List.mem_append, hnq]) r₀ h₀
  | upFailRetry i msg hin hr =>
    refine ⟨?_, ?_⟩
    · simpa [itemNames, hin] using h2
    · intro n hn r₀ h₀
      by_cases hnn : n = i.path.fileName
      · subst hnn
        rw [updateRecent_find?_self] at h₀
        rcases Option.map_eq_some'.mp h₀ with ⟨r₁, _, hr₁⟩
        subst hr₁
        simp [UploadStatus.isTerminal]
      · rw [updateRecent_find?_ne _ _ _ _ hnn] at h₀
        refine h3 n ?_ r₀ h₀
        have hn' : n ∈ (s.mgr.queue.map (fun j => j.path.fileName) ++
            [i.path.fileName]) := by
          simpa [itemNames] using hn
        simp only [itemNames, hin, Option.map_some, Option.toList_some]
        exact hn'
  | upFailDrop i msg hin hr =>
    have h2' : (s.mgr.queue.map (fun j => j.path.fileName) ++
        [i.path.fileName]).Nodup := by
      simpa [itemNames, hin] using h2
    refine ⟨?_, ?_⟩
    · simp only [itemNames]
      simpa using (List.nodup_append.mp h2').1
    · intro n hn r₀ h₀
      have hnq : n ∈ s.mgr.queue.map (fun j => j.path.fileName) := by
        simpa [itemNames] using hn
      have hnn : n ≠ i.path.fileName := by
        intro hcontra
        exact (List.nodup_append.mp h2').2.2 (hcontra ▸ hnq)
          (List.mem_singleton.mpr rfl)
      rw [updateRecent_find?_ne _ _ _ _ hnn] at h₀
      exact h3 n (by simp [itemNames, hin, List.mem_append, hnq]) r₀ h₀

theorem liveInv_reachable (s : SysState) (h : ReachableLive s) : LiveInv s := by
  induction h with
  | refl => exact liveInv_init
  | tail hsteps hstep ih => exact liveInv_step hstep ih

/-- **C3 (amended).** Along traces in which every enqueued path carries a
file name different from every currently queued or in-flight item's name
(`StepLive` — no *live* name collisions; reusing the name of an
already-finished file is allowed, as in the spec §8 sequential `report.pdf`
scenario), a recent record that has reached a terminal status (`Success` or
`Failed`) is never modified by any step: a worker status update leaves it
in place unchanged (the front-most-match update always hits a non-terminal
record), and an enqueue can only shift it one position toward the back
(head insertion) or evict it past the capacity bound. Its status is
therefore never set back to `Uploading` or `Pending`. -/
theorem terminal_status_stable_of_fresh_item_names (s s' : SysState)
    (hreach : ReachableLive s) (hstep : StepLive s s')
    (j : Nat) (r : RecentUpload) (hj : s.mgr.recent[j]? = some r)
    (hterm : r.status.isTerminal) :
    s'.mgr.recent[j]? = some r ∨ s'.mgr.recent[j + 1]? = some r ∨
      MAX_RECENT ≤ j + 1 := by
  obtain ⟨h2, h3⟩ := liveInv_reachable s hreach
  cases hstep with
  | enq p ts hallow =>
    by_cases hmem : p ∈ s.mgr.queue.map QueueItem.path
    · have he := enqueue_of_mem s.mgr p ts hmem
      exact Or.inl (by simpa [he] using hj)
    · have he := enqueue_of_not_mem s.mgr p ts hmem
      by_cases hcap : j + 1 < MAX_RECENT
      · refine Or.inr (Or.inl ?_)
        have htake : (MgrState.enqueue p ts s.mgr).recent =
            ({ name := p.fileName, status := .Pending, timestamp := ts,
               error := none } :: s.mgr.recent).take MAX_RECENT := by
          rw [he]
          exact addRecent_eq_take _ _
        simp only [htake]
        rw [List.getElem?_take_of_lt hcap, List.getElem?_cons_succ]
        exact hj
      · exact Or.inr (Or.inr (by omega))
  | deq i q hfree hq =>
    refine Or.inl ?_
    have hn : i.path.fileName ∈ itemNames s := by
      simp [itemNames, hq]
    exact updateRecent_getElem?_of_terminal _ _ _ _ j r hj hterm
      (h3 i.path.fileName hn)
  | valFail i reason hin =>
    refine Or.inl ?_
    have hn : i.path.fileName ∈ itemNames s := by
      simp [itemNames, hin]
    exact updateRecent_getElem?_of_terminal _ _ _ _ j r hj hterm
      (h3 i.path.fileName hn)
  | upOk i hin =>
    refine Or.inl ?_
    have hn : i.path.fileName ∈ itemNames s := by
      simp [itemNames, hin]
    exact updateRecent_getElem?_of_terminal _ _ _ _ j r hj hterm
      (h3 i.path.fileName hn)
  | upFailRetry i msg hin hrt =>
    refine Or.inl ?_
    have hn : i.path.fileName ∈ itemNames s := by
      simp [itemNames, hin]
    exact updateRecent_getElem?_of_terminal _ _ _ _ j r hj hterm
      (h3 i.path.fileName hn)
  | upFailDrop i msg hin hrt =>
    refine Or.inl ?_
    have hn : i.path.fileName ∈ itemNames s := by
      simp [itemNames, hin]
    exact updateRecent_getElem?_of_terminal _ _ _ _ j r hj hterm
      (h3 i.path.fileName hn)

/-- Witness for `terminal_status_stable_of_fresh_item_names`: re-enqueueing
the name `a.pdf` — free again, its previous file having finished
terminally — is a legal `StepLive` step, and the terminal `Failed` record
survives unchanged, shifted one position toward the back. -/
theorem terminal_status_stable_of_fresh_item_names_witness :
    wTrace4.mgr.recent[0]? =
        some { name := "a.pdf", status := .Failed, timestamp := "t1",
               error := some "No se puede leer" } ∨
      wTrace4.mgr.recent[0 + 1]? =
        some { name := "a.pdf", status := .Failed, timestamp := "t1",
               error := some "No se puede leer" } ∨
      MAX_RECENT ≤ 0 + 1 := by
  have hreach : ReachableLive wTrace3 :=
    Relation.ReflTransGen.head (StepG.enq SysState.init pdfPath "t1" (by decide))
      (Relation.ReflTransGen.head
        (StepG.deq _ { path := pdfPath, retries := 0 } [] rfl (by decide))
        (Relation.ReflTransGen.single
          (StepG.valFail _ { path := pdfPath, retries := 0 } "No se puede leer"
            (by decide))))
  have hstep : StepLive wTrace3 wTrace4 :=
    StepG.enq wTrace3 reusedPath "t2" (by decide)
  exact terminal_status_stable_of_fresh_item_names wTrace3 wTrace4 hreach hstep
    0 { name := "a.pdf", status := .Failed, timestamp := "t1",
        error := some "No se puede leer" } (by decide) (by decide)


/-- **C3 (counterexample).** Status updates are keyed by file name and hit
the front-most (most recent) matching record. With two different-path files
both named `report.pdf`, the first item's validation failure marks the
*younger* record `Failed` (terminal); dequeuing the second item then sets
that same record back to `Uploading` — a terminal record is reverted,
refuting the claimed forward-only invariant for the full system. -/
theorem name_collision_reverts_terminal_status :
    ∃ s s' : SysState, Reachable s ∧ Step s s' ∧
      s.mgr.recent.head? =
        some { name := "report.pdf", status := .Failed, timestamp := "t2",
               error := some "Archivo vacío" } ∧
      s'.mgr.recent.head? =
        some { name := "report.pdf", status := .Uploading, timestamp := "t2",
               error := none } := by
  refine ⟨_, _,
    Relation.ReflTransGen.head (StepG.enq SysState.init reportPathA "t1" trivial)
      (Relation.ReflTransGen.head (StepG.enq _ reportPathB "t2" trivial)
        (Relation.ReflTransGen.head
          (StepG.deq _ { path := reportPathA, retries := 0 }
            [{ path := reportPathB, retries := 0 }] rfl (by decide))
          (Relation.ReflTransGen.single
            (StepG.valFail _ { path := reportPathA, retries := 0 } "Archivo vacío"
              (by decide))))),
    StepG.deq _ { path := reportPathB, retries := 0 } [] rfl (by decide),
    ?_, ?_⟩
  · decide
  · decide

end Inmob
